import Mathlib

/-!
Verification of the video frame deduplication pipeline
(`src/video-analyzer`): TF-IDF vectorization, clustering dispatch,
group formation, representative selection, OCR result collection and
timestamp rendering, shallowly embedded in Lean.

Numeric (IEEE double) computations of the source are modelled over `ℝ`
(with `ℚ` for the purely rational timestamp arithmetic); machine floats
are treated as exact real arithmetic.  External processes (ffmpeg,
tesseract) and external numeric libraries (`ml-kmeans`,
`density-clustering`) are modelled as oracle parameters, since only
their call contracts are visible from the repository.
-/

namespace VideoAnalyzer

open scoped List

/-! ## TF-IDF vectorizer (`src/video-analyzer/tfidf.ts`) -/

/-- Stop-word list from `tfidf.ts` (`STOP_WORDS`). -/
def stopWords : List String :=
  ["a", "an", "and", "are", "as", "at", "be", "but", "by", "for", "if", "in",
   "into", "is", "it", "no", "not", "of", "on", "or", "such", "that", "the",
   "their", "then", "there", "these", "they", "this", "to", "was", "will", "with",
   "i", "me", "my", "myself", "we", "our", "ours", "ourselves", "you", "your",
   "yours", "yourself", "yourselves", "he", "him", "his", "himself", "she", "her",
   "hers", "herself", "its", "itself", "them", "theirs", "themselves",
   "what", "which", "who", "whom", "when", "where", "why", "how",
   "all", "each", "every", "both", "few", "more", "most", "other", "some",
   "am", "been", "being", "do", "does", "did", "doing", "would", "should",
   "could", "ought", "might", "shall", "can", "need", "dare", "had", "has",
   "have", "having", "s", "t", "d", "ll", "re", "ve", "m",
   "about", "above", "after", "again", "against", "before", "below", "between",
   "during", "from", "further", "here", "just", "nor", "only", "own", "same",
   "so", "than", "too", "very", "now", "don", "didn", "doesn", "hadn", "hasn",
   "haven", "isn", "wasn", "weren", "won", "wouldn", "shouldn", "couldn",
   "down", "off", "out", "over", "under", "until", "up"]

/-- Replacement of every character outside `[a-z0-9]` and whitespace by a
space (the regex replace in `tokenize`). -/
def sanitizeChar (c : Char) : Char :=
  if (('a' ≤ c ∧ c ≤ 'z') ∨ ('0' ≤ c ∧ c ≤ '9') ∨ c.isWhitespace) then c else ' '

/-- Splitting a character sequence into its maximal non-whitespace runs,
the behaviour of `split(/\s+/)` followed by dropping empty tokens.  The
first argument accumulates the current word in reverse. -/
def splitNonWs : List Char → List Char → List String
  | cur, [] => if cur = [] then [] else [String.mk cur.reverse]
  | cur, c :: rest =>
    if c.isWhitespace then
      if cur = [] then splitNonWs [] rest
      else String.mk cur.reverse :: splitNonWs [] rest
    else splitNonWs (c :: cur) rest

/-- Tokenizer from `tfidf.ts`: lowercase, sanitize, split on whitespace,
drop empty tokens and stop words, then append bigrams of consecutive
surviving words. -/
def tokenize (text : String) : List String :=
  let cleaned := (text.data.map Char.toLower).map sanitizeChar
  let words := (splitNonWs [] cleaned).filter (fun w => !stopWords.contains w)
  words ++ List.zipWith (fun a b => a ++ " " ++ b) words words.tail

/-- Pair each element of a list with its position, starting at `i`. -/
def withIdx : Nat → List α → List (Nat × α)
  | _, [] => []
  | i, a :: l => (i, a) :: withIdx (i + 1) l

/-- Test for `text.trim().length > 0`: a string survives exactly when it
has at least one non-whitespace character. -/
def hasContent (s : String) : Bool :=
  s.data.any (fun c => !c.isWhitespace)

/-- The filtering loop at the top of `buildTfidfMatrix`: texts whose
`trim` is non-empty, paired with their original positions. -/
def nonEmptyEnum (texts : List String) : List (Nat × String) :=
  (withIdx 0 texts).filter (fun p => hasContent p.2)

/-- `nonEmptyIndices` of `buildTfidfMatrix`. -/
def originalIndicesOf (texts : List String) : List Nat :=
  (nonEmptyEnum texts).map (fun p => p.1)

/-- `nonEmptyTexts.map(tokenize)` of `buildTfidfMatrix`. -/
def tokenizedDocsOf (texts : List String) : List (List String) :=
  (nonEmptyEnum texts).map (fun p => tokenize p.2)

/-- Number of filtered (non-empty) documents, `nDocs`. -/
def nDocsOf (texts : List String) : Nat :=
  (nonEmptyEnum texts).length

/-- Document frequency of a term: the number of filtered documents that
contain it (values of the `dfCounts` map). -/
def dfOf (texts : List String) (t : String) : Nat :=
  (tokenizedDocsOf texts).countP (fun d => decide (t ∈ d))

/-- First-occurrence deduplication, the key order of a JS `Map`/`Set`. -/
def uniqueFirstAux : List String → List String → List String
  | acc, [] => acc
  | acc, t :: rest =>
    if t ∈ acc then uniqueFirstAux acc rest else uniqueFirstAux (acc ++ [t]) rest

/-- First-occurrence deduplication of a list of terms. -/
def uniqueFirst (l : List String) : List String := uniqueFirstAux [] l

/-- Keys of `dfCounts` in insertion order: every term observed in some
filtered document, at its first global occurrence. -/
def observedTermsOf (texts : List String) : List String :=
  uniqueFirst (tokenizedDocsOf texts).flatten

/-- `maxDf = Math.floor(nDocs * 0.95)`, over exact arithmetic. -/
def maxDfOf (texts : List String) : Nat :=
  19 * nDocsOf texts / 20

/-- The document-frequency retention rule of `buildTfidfMatrix`. -/
def dfRule (texts : List String) (t : String) : Prop :=
  1 ≤ dfOf texts t ∧ (nDocsOf texts ≤ 1 ∨ dfOf texts t ≤ maxDfOf texts)

instance (texts : List String) (t : String) : Decidable (dfRule texts t) := by
  unfold dfRule; infer_instance

/-- Terms retained by the `min_df=1, max_df=0.95` filter. -/
def keptTermsOf (texts : List String) : List String :=
  (observedTermsOf texts).filter (fun t => decide (dfRule texts t))

/-- Vocabulary of `buildTfidfMatrix`: the df-filtered terms, or every
observed term when the filter leaves nothing. -/
def vocabularyOf (texts : List String) : List String :=
  if keptTermsOf texts = [] then observedTermsOf texts else keptTermsOf texts

/-- The un-normalized TF-IDF row of one tokenized document: sublinear
term frequency times smoothed inverse document frequency at every
vocabulary position whose term occurs in the document, zero elsewhere. -/
noncomputable def rawRowOf (texts : List String) (tokens : List String) : List ℝ :=
  (vocabularyOf texts).map (fun t =>
    if tokens.count t = 0 then 0
    else (1 + Real.log (tokens.count t)) *
      (Real.log ((1 + (nDocsOf texts : ℝ)) / (1 + (dfOf texts t : ℝ))) + 1))

/-- Euclidean norm of a row, as computed in `buildTfidfMatrix`. -/
noncomputable def l2norm (row : List ℝ) : ℝ :=
  Real.sqrt ((row.map (fun v => v * v)).sum)

/-- Row normalization of `buildTfidfMatrix`: divide by the norm when it
is positive, otherwise leave the row untouched. -/
noncomputable def l2normalizeRow (row : List ℝ) : List ℝ :=
  if 0 < l2norm row then row.map (fun v => v / l2norm row) else row

/-- Result record of `buildTfidfMatrix` (`TfidfResult` in `types.ts`). -/
structure TfidfResult where
  matrix : List (List ℝ)
  vocabulary : List String
  originalIndices : List Nat

/-- `buildTfidfMatrix` from `tfidf.ts`: filter empty texts, tokenize,
build the df-filtered vocabulary, weight and L2-normalize each row. -/
noncomputable def buildTfidfMatrix (texts : List String) : TfidfResult :=
  if nonEmptyEnum texts = [] then ⟨[], [], []⟩
  else
    { matrix := (tokenizedDocsOf texts).map
        (fun tokens => l2normalizeRow (rawRowOf texts tokens))
      vocabulary := vocabularyOf texts
      originalIndices := originalIndicesOf texts }

/-- `cosineSimilarity` from `tfidf.ts`. -/
noncomputable def cosineSimilarity (a b : List ℝ) : ℝ :=
  let dot := (List.zipWith (fun x y => x * y) a b).sum
  let normA := (a.map (fun v => v * v)).sum
  let normB := (b.map (fun v => v * v)).sum
  let denom := Real.sqrt normA * Real.sqrt normB
  if denom = 0 then 0 else dot / denom

lemma tokenizedDocsOf_length (texts : List String) :
    (tokenizedDocsOf texts).length = (nonEmptyEnum texts).length := by
  simp [tokenizedDocsOf]

lemma buildTfidfMatrix_matrix_length (texts : List String) :
    (buildTfidfMatrix texts).matrix.length = (nonEmptyEnum texts).length := by
  unfold buildTfidfMatrix
  split
  · simp [*]
  · simp [tokenizedDocsOf]

lemma buildTfidfMatrix_originalIndices (texts : List String) :
    (buildTfidfMatrix texts).originalIndices = originalIndicesOf texts := by
  unfold buildTfidfMatrix
  split
  · simp [originalIndicesOf, *]
  · rfl

lemma buildTfidfMatrix_vocabulary (texts : List String) :
    (buildTfidfMatrix texts).vocabulary = vocabularyOf texts := by
  unfold buildTfidfMatrix
  split
  · rename_i h
    simp [vocabularyOf, keptTermsOf, observedTermsOf, tokenizedDocsOf, h, uniqueFirst,
      uniqueFirstAux]
  · rfl

lemma getD_map {α β : Type} (l : List α) (f : α → β) (i : Nat)
    (hi : i < l.length) (da : α) (db : β) :
    (l.map f).getD i db = f (l.getD i da) := by
  induction l generalizing i with
  | nil => exact absurd hi (by simp)
  | cons a t ih =>
    cases i with
    | zero => rfl
    | succ n => simpa using ih n (by simpa using hi)

lemma sum_sq_nonneg (row : List ℝ) : 0 ≤ (row.map (fun v => v * v)).sum :=
  List.sum_nonneg (by
    intro x hx
    obtain ⟨v, _, rfl⟩ := List.mem_map.mp hx
    exact mul_self_nonneg v)

lemma l2norm_nonneg (row : List ℝ) : 0 ≤ l2norm row :=
  Real.sqrt_nonneg _

lemma l2norm_normalized (row : List ℝ) (h : 0 < l2norm row) :
    l2norm (row.map (fun v => v / l2norm row)) = 1 := by
  set n := l2norm row with hn
  have hS : (row.map (fun v => v * v)).sum = n * n := by
    rw [hn]
    unfold l2norm
    rw [Real.mul_self_sqrt (sum_sq_nonneg row)]
  unfold l2norm
  rw [List.map_map]
  have hfun : ((fun v => v * v) ∘ fun v => v / n) = fun v => (v * v) * (n * n)⁻¹ := by
    funext v
    show v / n * (v / n) = v * v * (n * n)⁻¹
    rw [div_mul_div_comm, div_eq_mul_inv]
  rw [hfun, List.sum_map_mul_right, hS, mul_inv_cancel₀ (by positivity)]
  exact Real.sqrt_one

lemma eq_zero_of_sum_sq_eq_zero :
    ∀ row : List ℝ, (row.map (fun v => v * v)).sum = 0 → ∀ x ∈ row, x = 0 := by
  intro row
  induction row with
  | nil => intro _ x hx; cases hx
  | cons a t ih =>
    intro hsum x hx
    have hs : a * a + (t.map (fun v => v * v)).sum = 0 := by simpa using hsum
    have hta : a * a = 0 ∧ (t.map (fun v => v * v)).sum = 0 := by
      constructor <;> nlinarith [sum_sq_nonneg t, mul_self_nonneg a]
    rcases List.mem_cons.mp hx with rfl | hx
    · exact mul_self_eq_zero.mp hta.1
    · exact ih hta.2 x hx

lemma l2norm_zero_all (row : List ℝ) (h : ¬ 0 < l2norm row) :
    ∀ x ∈ row, x = 0 := by
  have h0 : l2norm row = 0 := le_antisymm (not_lt.mp h) (l2norm_nonneg row)
  have hs : (row.map (fun v => v * v)).sum = 0 := by
    unfold l2norm at h0
    exact (Real.sqrt_eq_zero (sum_sq_nonneg row)).mp h0
  exact eq_zero_of_sum_sq_eq_zero row hs

lemma l2normalizeRow_norm (row : List ℝ) :
    l2norm (l2normalizeRow row) = 1 ∨ ∀ x ∈ l2normalizeRow row, x = 0 := by
  unfold l2normalizeRow
  split
  · exact Or.inl (l2norm_normalized row ‹_›)
  · exact Or.inr (l2norm_zero_all row ‹_›)

lemma buildTfidfMatrix_matrix_getD (texts : List String) (i : Nat)
    (hi : i < (buildTfidfMatrix texts).matrix.length) :
    (buildTfidfMatrix texts).matrix.getD i [] =
      l2normalizeRow (rawRowOf texts ((tokenizedDocsOf texts).getD i [])) := by
  rw [buildTfidfMatrix_matrix_length] at hi
  unfold buildTfidfMatrix
  split
  · rename_i h
    rw [h] at hi
    cases hi
  · exact getD_map (tokenizedDocsOf texts) _ i
      (by rw [tokenizedDocsOf_length]; exact hi) [] []

/-- C3: for every list of input texts, each matrix entry for a term present
in a document is `(1 + ln count) * (ln ((1+nDocs)/(1+df)) + 1)`, other
vocabulary positions are zero, each row is the L2 normalization of that raw
row, and every output row has Euclidean norm 1 or is exactly zero. -/
theorem tfidf_entries_and_row_norms (texts : List String) (i : Nat)
    (hi : i < (buildTfidfMatrix texts).matrix.length) :
    (buildTfidfMatrix texts).matrix.getD i [] =
        l2normalizeRow (rawRowOf texts ((tokenizedDocsOf texts).getD i [])) ∧
    (∀ j, j < (vocabularyOf texts).length →
      (rawRowOf texts ((tokenizedDocsOf texts).getD i [])).getD j 0 =
        (if ((tokenizedDocsOf texts).getD i []).count ((vocabularyOf texts).getD j "") = 0
         then 0
         else (1 + Real.log
            (((tokenizedDocsOf texts).getD i []).count ((vocabularyOf texts).getD j ""))) *
          (Real.log ((1 + (nDocsOf texts : ℝ)) /
            (1 + (dfOf texts ((vocabularyOf texts).getD j "") : ℝ))) + 1))) ∧
    (l2norm ((buildTfidfMatrix texts).matrix.getD i []) = 1 ∨
      ∀ x ∈ (buildTfidfMatrix texts).matrix.getD i [], x = 0) := by
  have hget := buildTfidfMatrix_matrix_getD texts i hi
  refine ⟨hget, ?_, ?_⟩
  · intro j hj
    unfold rawRowOf
    exact getD_map (vocabularyOf texts) _ j hj "" 0
  · rw [hget]
    exact l2normalizeRow_norm _

/-- Witness for C3 at the single text `"hello world"`. -/
theorem tfidf_entries_and_row_norms_witness :
    0 < (buildTfidfMatrix ["hello world"]).matrix.length ∧
      (l2norm ((buildTfidfMatrix ["hello world"]).matrix.getD 0 []) = 1 ∨
        ∀ x ∈ (buildTfidfMatrix ["hello world"]).matrix.getD 0 [], x = 0) :=
  ⟨by rw [buildTfidfMatrix_matrix_length]; decide,
   (tfidf_entries_and_row_norms ["hello world"] 0
      (by rw [buildTfidfMatrix_matrix_length]; decide)).2.2⟩

/-- C4: for a non-empty filtered document set, a term is in the vocabulary
iff it is observed, `df ≥ 1` holds, and (`nDocs ≤ 1` or
`df ≤ floor(0.95 * nDocs)`); when that rule keeps nothing, every observed
term is included instead. -/
theorem vocabulary_retention (texts : List String) (t : String)
    (hne : nonEmptyEnum texts ≠ []) :
    (keptTermsOf texts ≠ [] →
      (t ∈ vocabularyOf texts ↔
        t ∈ observedTermsOf texts ∧ 1 ≤ dfOf texts t ∧
          (nDocsOf texts ≤ 1 ∨ dfOf texts t ≤ maxDfOf texts))) ∧
    (keptTermsOf texts = [] → vocabularyOf texts = observedTermsOf texts) := by
  constructor
  · intro hk
    unfold vocabularyOf
    rw [if_neg hk]
    unfold keptTermsOf
    simp [List.mem_filter, dfRule]
  · intro hk
    unfold vocabularyOf
    rw [if_pos hk]

/-- Witness for C4 on two concrete documents. -/
theorem vocabulary_retention_witness :
    nonEmptyEnum ["alpha beta", "alpha gamma"] ≠ [] ∧
      (keptTermsOf ["alpha beta", "alpha gamma"] ≠ [] →
        ("beta" ∈ vocabularyOf ["alpha beta", "alpha gamma"] ↔
          "beta" ∈ observedTermsOf ["alpha beta", "alpha gamma"] ∧
            1 ≤ dfOf ["alpha beta", "alpha gamma"] "beta" ∧
            (nDocsOf ["alpha beta", "alpha gamma"] ≤ 1 ∨
              dfOf ["alpha beta", "alpha gamma"] "beta" ≤
                maxDfOf ["alpha beta", "alpha gamma"]))) :=
  ⟨by decide, (vocabulary_retention ["alpha beta", "alpha gamma"] "beta" (by decide)).1⟩

/-! ## Representative selection (`src/video-analyzer/representativeSelection.ts`) -/

/-- Centroid of a matrix: per-dimension mean of all rows, the dimension
being the length of the first row. -/
noncomputable def centroidOf (m : List (List ℝ)) : List ℝ :=
  (List.range (m.headD []).length).map
    (fun j => (m.map (fun r => r.getD j 0)).sum / m.length)

/-- Cosine similarity of each matrix row to the matrix centroid, in row
order (the loop of `selectRepresentative`). -/
noncomputable def simsOf (texts : List String) : List ℝ :=
  (buildTfidfMatrix texts).matrix.map
    (fun row => cosineSimilarity row (centroidOf (buildTfidfMatrix texts).matrix))

/-- The best-index loop of `selectRepresentative`: `i` is the position of
the head of the remaining list, `bi`/`bs` the best index and similarity so
far.  A strict improvement is required to replace the incumbent. -/
noncomputable def argmaxFirstAux : List ℝ → Nat → Nat → ℝ → Nat
  | [], _, bi, _ => bi
  | s :: rest, i, bi, bs =>
    if bs < s then argmaxFirstAux rest (i + 1) i s
    else argmaxFirstAux rest (i + 1) bi bs

/-- First index of the maximal value of a list (the source loop starts
from best similarity `-Infinity`, so the head always becomes the initial
incumbent). -/
noncomputable def argmaxFirst : List ℝ → Nat
  | [] => 0
  | s :: rest => argmaxFirstAux rest 1 0 s

/-- `selectRepresentative` from `representativeSelection.ts`; the throw on
an empty group is modelled as `none`. -/
noncomputable def selectRepresentative (paths texts : List String) : Option String :=
  if paths.length = 0 then none
  else if paths.length = 1 then some (paths.getD 0 "")
  else if (buildTfidfMatrix texts).matrix.length = 0 then some (paths.getD 0 "")
  else if (buildTfidfMatrix texts).matrix.length = 1 then
    some (paths.getD ((buildTfidfMatrix texts).originalIndices.getD 0 0) "")
  else
    some (paths.getD
      ((buildTfidfMatrix texts).originalIndices.getD (argmaxFirst (simsOf texts)) 0) "")

lemma argmaxFirstAux_spec (rest : List ℝ) :
    ∀ (pre : List ℝ) (bi : Nat), bi < pre.length →
    (∀ j, j < pre.length → pre.getD j 0 ≤ pre.getD bi 0) →
    (∀ j, j < bi → pre.getD j 0 < pre.getD bi 0) →
    argmaxFirstAux rest pre.length bi (pre.getD bi 0) < (pre ++ rest).length ∧
    (∀ j, j < (pre ++ rest).length →
      (pre ++ rest).getD j 0 ≤
        (pre ++ rest).getD (argmaxFirstAux rest pre.length bi (pre.getD bi 0)) 0) ∧
    (∀ j, j < argmaxFirstAux rest pre.length bi (pre.getD bi 0) →
      (pre ++ rest).getD j 0 <
        (pre ++ rest).getD (argmaxFirstAux rest pre.length bi (pre.getD bi 0)) 0) := by
  induction rest with
  | nil =>
    intro pre bi h1 h2 h3
    simp only [List.append_nil, argmaxFirstAux]
    exact ⟨h1, h2, h3⟩
  | cons s rest ih =>
    intro pre bi h1 h2 h3
    have hlen : (pre ++ [s]).length = pre.length + 1 := by simp
    have hs : (pre ++ [s]).getD pre.length 0 = s := by
      rw [List.getD_append_right _ _ _ _ (le_refl _)]
      simp
    have hkeep : ∀ j, j < pre.length → (pre ++ [s]).getD j 0 = pre.getD j 0 := by
      intro j hj
      exact List.getD_append _ _ _ _ hj
    have hassoc : (pre ++ [s]) ++ rest = pre ++ s :: rest := by simp
    show argmaxFirstAux (s :: rest) pre.length bi (pre.getD bi 0) < _ ∧ _
    by_cases hlt : pre.getD bi 0 < s
    · have step : argmaxFirstAux (s :: rest) pre.length bi (pre.getD bi 0) =
          argmaxFirstAux rest ((pre ++ [s]).length) pre.length ((pre ++ [s]).getD pre.length 0) := by
        simp only [argmaxFirstAux, if_pos hlt, hlen, hs]
      rw [step]
      have spec := ih (pre ++ [s]) pre.length (by omega)
        (by
          intro j hj
          rw [hs]
          rcases Nat.lt_succ_iff_lt_or_eq.mp (by simpa using hj) with hj' | hj'
          · rw [hkeep j hj']
            exact le_of_lt (lt_of_le_of_lt (h2 j hj') hlt)
          · subst hj'
            rw [hs])
        (by
          intro j hj
          rw [hs, hkeep j hj]
          exact lt_of_le_of_lt (h2 j hj) hlt)
      rw [hassoc] at spec
      exact spec
    · have step : argmaxFirstAux (s :: rest) pre.length bi (pre.getD bi 0) =
          argmaxFirstAux rest ((pre ++ [s]).length) bi ((pre ++ [s]).getD bi 0) := by
        simp only [argmaxFirstAux, if_neg hlt, hlen, hkeep bi h1]
      rw [step]
      have spec := ih (pre ++ [s]) bi (by omega)
        (by
          intro j hj
          rw [hkeep bi h1]
          rcases Nat.lt_succ_iff_lt_or_eq.mp (by simpa using hj) with hj' | hj'
          · rw [hkeep j hj']
            exact h2 j hj'
          · subst hj'
            rw [hs]
            exact not_lt.mp hlt)
        (by
          intro j hj
          rw [hkeep bi h1, hkeep j (lt_trans hj h1)]
          exact h3 j hj)
      rw [hassoc] at spec
      exact spec

lemma argmaxFirst_spec (sims : List ℝ) (h : sims ≠ []) :
    argmaxFirst sims < sims.length ∧
    (∀ j, j < sims.length → sims.getD j 0 ≤ sims.getD (argmaxFirst sims) 0) ∧
    (∀ j, j < argmaxFirst sims → sims.getD j 0 < sims.getD (argmaxFirst sims) 0) := by
  cases sims with
  | nil => exact absurd rfl h
  | cons s rest =>
    have spec := argmaxFirstAux_spec rest [s] 0 (by simp)
      (by
        intro j hj
        have hj0 : j = 0 := by simpa using hj
        subst hj0
        simp)
      (by intro j hj; omega)
    simpa [argmaxFirst] using spec

lemma withIdx_get? {l : List α} :
    ∀ (k j : Nat), (withIdx k l).get? j = (l.get? j).map (fun a => (k + j, a)) := by
  induction l with
  | nil => intro k j; simp [withIdx]
  | cons a t ih =>
    intro k j
    cases j with
    | zero => simp [withIdx]
    | succ n =>
      simp only [withIdx, List.get?_cons_succ, ih (k + 1) n]
      cases t.get? n <;> simp <;> omega

lemma withIdx_map_snd : ∀ (l : List α) (k : Nat), (withIdx k l).map (fun p => p.2) = l := by
  intro l
  induction l with
  | nil => intro k; rfl
  | cons a t ih => intro k; simp [withIdx, ih]

lemma mem_originalIndicesOf {texts : List String} {i : Nat} :
    i ∈ originalIndicesOf texts ↔
      i < texts.length ∧ hasContent (texts.getD i "") = true := by
  unfold originalIndicesOf nonEmptyEnum
  constructor
  · intro hmem
    obtain ⟨p, hp, rfl⟩ := List.mem_map.mp hmem
    obtain ⟨hpw, hpc⟩ := List.mem_filter.mp hp
    obtain ⟨j, hj⟩ := List.mem_iff_get?.mp hpw
    rw [withIdx_get?] at hj
    cases hget : texts.get? j with
    | none => rw [hget] at hj; cases hj
    | some t =>
      rw [hget] at hj
      have hpj : p = (j, t) := by simpa using hj.symm
      subst hpj
      have hjl : j < texts.length := (List.get?_eq_some.mp hget).1
      refine ⟨hjl, ?_⟩
      have : texts.getD j "" = t := by
        rw [List.getD_eq_getD_get?, hget]
        rfl
      rw [this]
      exact hpc
  · intro ⟨hlt, hc⟩
    refine List.mem_map.mpr ⟨(i, texts.getD i ""), List.mem_filter.mpr ⟨?_, hc⟩, rfl⟩
    refine List.mem_iff_get?.mpr ⟨i, ?_⟩
    rw [withIdx_get?]
    have : texts.get? i = some (texts.getD i "") := by
      rw [List.getD_eq_getD_get?]
      cases hget : texts.get? i with
      | none => exact absurd ((List.get?_eq_none).mp hget) (by omega)
      | some t => rfl
    rw [this]
    simp

lemma nonEmptyEnum_eq_nil_iff {texts : List String} :
    nonEmptyEnum texts = [] ↔ ∀ t ∈ texts, hasContent t = false := by
  unfold nonEmptyEnum
  rw [List.filter_eq_nil]
  constructor
  · intro h t ht
    have := withIdx_map_snd texts 0
    obtain ⟨p, hp, hps⟩ := List.mem_map.mp (this ▸ ht)
    have := h p hp
    rw [hps] at this
    simpa using this
  · intro h p hp
    have hsnd : p.2 ∈ texts := by
      rw [← withIdx_map_snd texts 0]
      exact List.mem_map.mpr ⟨p, hp, rfl⟩
    simpa using h p.2 hsnd

lemma withIdx_pairwise_fst (l : List α) :
    ∀ k, List.Pairwise (fun p q => p.1 < q.1) (withIdx k l) := by
  induction l with
  | nil => intro k; exact List.Pairwise.nil
  | cons a t ih =>
    intro k
    refine List.Pairwise.cons ?_ (ih (k + 1))
    intro q hq
    have hbound : ∀ m, ∀ q ∈ withIdx m t, m ≤ q.1 := by
      intro m q hq
      obtain ⟨j, hj⟩ := List.mem_iff_get?.mp hq
      rw [withIdx_get?] at hj
      cases hget : t.get? j with
      | none => rw [hget] at hj; cases hj
      | some b =>
        rw [hget] at hj
        have : q = (m + j, b) := by simpa using hj.symm
        subst this
        omega
    have := hbound (k + 1) q hq
    omega

lemma originalIndicesOf_pairwise (texts : List String) :
    List.Pairwise (· < ·) (originalIndicesOf texts) := by
  unfold originalIndicesOf nonEmptyEnum
  exact List.pairwise_map.mpr
    (List.Pairwise.filter _ (withIdx_pairwise_fst texts 0))

/-- C5: representative selection returns the single frame for a singleton
group; the first frame when every member text is empty; the unique
non-empty-text member when exactly one exists; and otherwise the member at
the first index maximizing cosine similarity to the local TF-IDF centroid
(the strict-improvement loop breaks ties towards the earliest vectorized
member, and the vectorized member indices are strictly increasing, hence
chronologically earliest under the caller's chronological ordering). -/
theorem representative_selection_cases (paths texts : List String)
    (hne : paths ≠ []) :
    (paths.length = 1 → selectRepresentative paths texts = some (paths.getD 0 "")) ∧
    ((∀ t ∈ texts, hasContent t = false) →
      selectRepresentative paths texts = some (paths.getD 0 "")) ∧
    (1 < paths.length → (nonEmptyEnum texts).length = 1 →
      selectRepresentative paths texts =
        some (paths.getD (((nonEmptyEnum texts).headD (0, "")).1) "")) ∧
    (1 < paths.length → 1 < (nonEmptyEnum texts).length →
      selectRepresentative paths texts =
        some (paths.getD
          ((originalIndicesOf texts).getD (argmaxFirst (simsOf texts)) 0) "") ∧
      argmaxFirst (simsOf texts) < (simsOf texts).length ∧
      (∀ j, j < (simsOf texts).length →
        (simsOf texts).getD j 0 ≤ (simsOf texts).getD (argmaxFirst (simsOf texts)) 0) ∧
      (∀ j, j < argmaxFirst (simsOf texts) →
        (simsOf texts).getD j 0 < (simsOf texts).getD (argmaxFirst (simsOf texts)) 0) ∧
      (∀ j, j < (simsOf texts).length →
        (simsOf texts).getD j 0 =
          cosineSimilarity ((buildTfidfMatrix texts).matrix.getD j [])
            (centroidOf (buildTfidfMatrix texts).matrix))) ∧
    (∀ i, i ∈ originalIndicesOf texts ↔
      i < texts.length ∧ hasContent (texts.getD i "") = true) ∧
    List.Pairwise (· < ·) (originalIndicesOf texts) := by
  have hlen0 : paths.length ≠ 0 := by
    intro h
    exact hne (List.length_eq_zero.mp h)
  refine ⟨?_, ?_, ?_, ?_, fun i => mem_originalIndicesOf, originalIndicesOf_pairwise texts⟩
  · intro h1
    unfold selectRepresentative
    rw [if_neg hlen0, if_pos h1]
  · intro hall
    have hm : (buildTfidfMatrix texts).matrix.length = 0 := by
      rw [buildTfidfMatrix_matrix_length]
      rw [nonEmptyEnum_eq_nil_iff.mpr hall]
      rfl
    unfold selectRepresentative
    rw [if_neg hlen0]
    by_cases h1 : paths.length = 1
    · rw [if_pos h1]
    · rw [if_neg h1, if_pos hm]
  · intro hgt hone
    have hm : (buildTfidfMatrix texts).matrix.length = 1 := by
      rw [buildTfidfMatrix_matrix_length, hone]
    unfold selectRepresentative
    rw [if_neg hlen0, if_neg (by omega), if_neg (by omega), if_pos hm,
      buildTfidfMatrix_originalIndices]
    obtain ⟨u, hu⟩ := List.length_eq_one.mp hone
    unfold originalIndicesOf
    rw [hu]
    rfl
  · intro hgt htwo
    have hm : (buildTfidfMatrix texts).matrix.length = (nonEmptyEnum texts).length :=
      buildTfidfMatrix_matrix_length texts
    have hsims_len : (simsOf texts).length = (buildTfidfMatrix texts).matrix.length := by
      unfold simsOf
      simp
    have hsne : simsOf texts ≠ [] := by
      intro h
      have h0 : (simsOf texts).length = 0 := by rw [h]; rfl
      omega
    have spec := argmaxFirst_spec (simsOf texts) hsne
    have hm0 : ¬ (buildTfidfMatrix texts).matrix.length = 0 := by omega
    have hm1 : ¬ (buildTfidfMatrix texts).matrix.length = 1 := by omega
    refine ⟨?_, spec.1, spec.2.1, spec.2.2, ?_⟩
    · unfold selectRepresentative
      rw [if_neg hlen0, if_neg (by omega), if_neg hm0, if_neg hm1,
        buildTfidfMatrix_originalIndices]
    · intro j hj
      have hjm : j < (buildTfidfMatrix texts).matrix.length := by omega
      unfold simsOf
      exact getD_map _ _ j hjm [] 0

/-- Witness for C5 on a singleton group. -/
theorem representative_selection_cases_witness :
    (["f1"] : List String) ≠ [] ∧
      ((["f1"] : List String).length = 1 →
        selectRepresentative ["f1"] ["x"] = some ((["f1"] : List String).getD 0 "")) :=
  ⟨by decide, (representative_selection_cases ["f1"] ["x"] (by decide)).1⟩

/-! ## Clustering (`src/video-analyzer/clustering.ts`)

The numeric backends (`ml-kmeans`, `density-clustering`) are external
libraries; they enter the embedding as oracle function parameters
(`km` giving the per-row cluster assignment of `kmeans(...).clusters`,
`db` giving the cluster point-index lists of `dbscan.run(...)`). -/

/-- `clusterKMeans` from `clustering.ts`: empty input gives no labels,
an effective cluster count of at most one gives a single cluster `0`,
otherwise the backend's labels are used. -/
def clusterKMeans (run : List (List ℝ) → Nat → List Nat)
    (m : List (List ℝ)) (nClusters : Nat) : List Int :=
  if m.length = 0 then []
  else if min nClusters m.length ≤ 1 then List.replicate m.length 0
  else (run m (min nClusters m.length)).map Int.ofNat

/-- Conversion of DBSCAN cluster point lists to a labels array: start
from all `-1` (noise) and write the cluster index at each member point. -/
def dbscanLabels (clusters : List (List Nat)) (n : Nat) : List Int :=
  (withIdx 0 clusters).foldl
    (fun acc p => p.2.foldl (fun a pt => a.set pt (p.1 : Int)) acc)
    (List.replicate n (-1))

/-- `clusterDBSCAN` from `clustering.ts`: empty input gives no labels,
fewer points than `minSamples` gives a single cluster `0`, otherwise the
backend's clusters are converted to labels with noise `-1`. -/
def clusterDBSCAN (run : List (List ℝ) → ℝ → Nat → List (List Nat))
    (m : List (List ℝ)) (eps : ℝ) (minSamples : Nat) : List Int :=
  if m.length = 0 then []
  else if m.length < minSamples then List.replicate m.length 0
  else dbscanLabels (run m eps minSamples) m.length

/-! ## Pipeline orchestrator (`analyzeVideo`, steps 3 and 4) -/

/-- Mapping cluster labels of the vectorized rows back to the full frame
set: an array of `-1` of frame length, overwritten at each original
index (the three identical loops in `analyzeVideo`). -/
def scatterLabels (n : Nat) (idxs : List Nat) (ls : List Int) : List Int :=
  (idxs.zip ls).foldl (fun acc p => acc.set p.1 p.2) (List.replicate n (-1))

/-- `Math.round` for non-negative reals: floor of `x + 1/2`. -/
noncomputable def jsRound (x : ℝ) : ℤ := ⌊x + 1 / 2⌋

/-- The automatic cluster count of `analyzeVideo`:
`max(1, min(round(sqrt(n/2)), 50))`. -/
noncomputable def autoKOf (n : Nat) : Nat :=
  max 1 (min (jsRound (Real.sqrt ((n : ℝ) / 2))).toNat 50)

/-- The label-assignment step of `analyzeVideo`: everything in one
cluster when no text vectorized; otherwise DBSCAN when `eps` is given,
K-means with the given `k` next, and auto-`k` K-means last, each
scattered back over the full frame list. -/
noncomputable def pipelineLabels (km : List (List ℝ) → Nat → List Nat)
    (db : List (List ℝ) → ℝ → Nat → List (List Nat))
    (frames texts : List String)
    (nClusters : Option Nat) (dbscanEps : Option ℝ) : List Int :=
  if (buildTfidfMatrix texts).matrix.length = 0 then
    List.replicate frames.length 0
  else
    match dbscanEps with
    | some e =>
      scatterLabels frames.length (buildTfidfMatrix texts).originalIndices
        (clusterDBSCAN db (buildTfidfMatrix texts).matrix e 2)
    | none =>
      match nClusters with
      | some k =>
        scatterLabels frames.length (buildTfidfMatrix texts).originalIndices
          (clusterKMeans km (buildTfidfMatrix texts).matrix
            (min k (buildTfidfMatrix texts).matrix.length))
      | none =>
        scatterLabels frames.length (buildTfidfMatrix texts).originalIndices
          (clusterKMeans km (buildTfidfMatrix texts).matrix
            (autoKOf (buildTfidfMatrix texts).matrix.length))

/-- Splitting a character list at every occurrence of a separator. -/
def splitOnChar (sep : Char) : List Char → List (List Char)
  | [] => [[]]
  | x :: rest =>
    match splitOnChar sep rest with
    | [] => [[]]
    | w :: ws => if x = sep then [] :: w :: ws else (x :: w) :: ws

/-- Dropping the extension (`path.extname`) from a file base name: when a
dot separates segments, keep everything before the last dot. -/
def dropLastExt (base : List Char) : List Char :=
  match splitOnChar '.' base with
  | [] => base
  | [_] => base
  | ws => List.intercalate ['.'] ws.dropLast

/-- Removing the first occurrence of a pattern from a character list
(`String.replace(pat, "")` replaces only the first occurrence in JS). -/
def removeFirst (pat : List Char) : List Char → List Char
  | [] => []
  | c :: rest =>
    if pat.isPrefixOf (c :: rest) then (c :: rest).drop pat.length
    else c :: removeFirst pat rest

/-- Decimal value of a digit prefix; an empty digit prefix (JS `NaN`,
which never occurs on pipeline-produced names) is modelled as 0. -/
def digitsVal (l : List Char) : Nat :=
  l.foldl (fun acc c => acc * 10 + (c.toNat - 48)) 0

/-- `getFrameNumber` from `frameExtractor.ts`: strip directories, the
extension and the `frame_` prefix, then parse the leading digits. -/
def getFrameNumber (p : String) : Nat :=
  let base := (splitOnChar '/' p.data).getLastD []
  let name := dropLastExt base
  digitsVal ((removeFirst ("frame_".data) name).takeWhile Char.isDigit)

/-- JS `%` (floating modulo) for non-negative rationals. -/
def qFloorMod (a b : ℚ) : ℚ := a - b * ⌊a / b⌋

/-- `padStart(n, "0")` on a rendered string. -/
def padLeftZeros (s : String) (n : Nat) : String :=
  if s.length < n then String.mk (List.replicate (n - s.length) '0') ++ s else s

/-- A natural number rendered with at least two digits. -/
def natPad2 (n : Nat) : String := padLeftZeros (toString n) 2

/-- `toFixed(1)` for non-negative rationals: round to the nearest tenth,
halves away from zero, and render with one decimal digit. -/
def toFixed1 (q : ℚ) : String :=
  let t : ℤ := ⌊q * 10 + 1 / 2⌋
  toString (t.toNat / 10) ++ "." ++ toString (t.toNat % 10)

/-- Sampling rate used during frame extraction (`SAMPLE_FPS`). -/
def SAMPLE_FPS : Nat := 15

/-- Derived total seconds of a frame ordinal: `max(0, (N-1)/SAMPLE_FPS)`. -/
def totalSecondsOf (frameNum : Nat) : ℚ :=
  max 0 (((frameNum : ℚ) - 1) / (SAMPLE_FPS : ℚ))

/-- `frameNumberToTimestamp` from `frameExtractor.ts`: hours, minutes and
seconds are carved out of the total seconds with floored division and
floating modulo, the hour part appearing only when positive. -/
def frameNumberToTimestamp (frameNum : Nat) : String :=
  if 0 < (⌊totalSecondsOf frameNum / 3600⌋).toNat then
    natPad2 (⌊totalSecondsOf frameNum / 3600⌋).toNat ++ ":" ++
      natPad2 (⌊qFloorMod (totalSecondsOf frameNum) 3600 / 60⌋).toNat ++ ":" ++
      padLeftZeros (toFixed1 (qFloorMod (totalSecondsOf frameNum) 60)) 4
  else
    natPad2 (⌊qFloorMod (totalSecondsOf frameNum) 3600 / 60⌋).toNat ++ ":" ++
      padLeftZeros (toFixed1 (qFloorMod (totalSecondsOf frameNum) 60)) 4

/-- Insertion into the per-label index map, preserving first-occurrence
key order (JS `Map` insertion order). -/
def addIdx : List (Int × List Nat) → Int → Nat → List (Int × List Nat)
  | [], l, i => [(l, [i])]
  | (l', is) :: rest, l, i =>
    if l' = l then (l', is ++ [i]) :: rest else (l', is) :: addIdx rest l i

/-- The grouping loop of `analyzeVideo`: bucket frame indices by label,
the position in the labels array being the frame index. -/
def bucketsAux : Nat → List Int → List (Int × List Nat) → List (Int × List Nat)
  | _, [], acc => acc
  | i, l :: rest, acc => bucketsAux (i + 1) rest (addIdx acc l i)

/-- Buckets of frame indices per cluster label, in first-occurrence
label order. -/
def bucketsOf (labels : List Int) : List (Int × List Nat) := bucketsAux 0 labels []

/-- Mean frame number of a bucket (`avgFrame`). -/
def avgFrameOf (frames : List String) (idxs : List Nat) : ℚ :=
  ((idxs.map (fun i => (getFrameNumber (frames.getD i "") : ℚ))).sum) / (idxs.length : ℚ)

/-- Buckets sorted by ascending mean frame number; JS `Array.sort` is
stable, modelled by a stable insertion sort. -/
def sortedBucketsOf (frames : List String) (labels : List Int) : List (Int × List Nat) :=
  List.insertionSort (fun a b => avgFrameOf frames a.2 ≤ avgFrameOf frames b.2)
    (bucketsOf labels)

/-- Member indices of one group sorted by frame number (the
`frameTimestamps` sort). -/
def sortIndicesByFrame (frames : List String) (idxs : List Nat) : List Nat :=
  List.insertionSort
    (fun i j => getFrameNumber (frames.getD i "") ≤ getFrameNumber (frames.getD j ""))
    idxs

/-- One output group (`GroupInfo` in `types.ts`): the member `frames`
are kept as indices into the sampled frame list. -/
structure GroupCore where
  groupIndex : Nat
  frames : List Nat
  frameCount : Nat
  representative : Option String
  timeStart : String
  timeEnd : String
deriving DecidableEq

/-- The pipeline result (`VideoAnalyzerResult`), restricted to the
fields produced by the grouping stage; the representative path kept is
the selected source frame (the on-disk copy under `representative_frames`
is file I/O outside the embedding). -/
structure PipelineResultCore where
  totalFrames : Nat
  groups : List GroupCore
  representativeFramePaths : List String
deriving DecidableEq

/-- Assembly of one group from its bucket, as in the output loop of
`analyzeVideo`. -/
noncomputable def mkGroup (frames texts : List String) (gi : Nat)
    (bucket : Int × List Nat) : GroupCore :=
  let sorted := sortIndicesByFrame frames bucket.2
  { groupIndex := gi + 1
    frames := sorted
    frameCount := bucket.2.length
    representative := selectRepresentative
      (bucket.2.map (fun i => frames.getD i ""))
      (bucket.2.map (fun i => texts.getD i ""))
    timeStart :=
      match sorted.head? with
      | some i => frameNumberToTimestamp (getFrameNumber (frames.getD i ""))
      | none => "00:00"
    timeEnd :=
      match sorted.getLast? with
      | some i => frameNumberToTimestamp (getFrameNumber (frames.getD i ""))
      | none => "00:00" }

/-- All output groups of a run, ordered by ascending mean frame number
with 1-based `groupIndex`. -/
noncomputable def formGroups (frames texts : List String) (labels : List Int) :
    List GroupCore :=
  (withIdx 0 (sortedBucketsOf frames labels)).map (fun p => mkGroup frames texts p.1 p.2)

/-- The pure core of `analyzeVideo` after frames and texts are known:
label assignment, grouping, and result assembly. -/
noncomputable def analyzeVideoCore (km : List (List ℝ) → Nat → List Nat)
    (db : List (List ℝ) → ℝ → Nat → List (List Nat))
    (frames texts : List String)
    (nClusters : Option Nat) (dbscanEps : Option ℝ) : PipelineResultCore :=
  let gs := formGroups frames texts (pipelineLabels km db frames texts nClusters dbscanEps)
  { totalFrames := frames.length
    groups := gs
    representativeFramePaths := gs.filterMap (fun g => g.representative) }

/-- The cache-miss path of `analyzeVideo`: zero extracted frames
short-circuit to an empty successful result before OCR. -/
noncomputable def analyzeVideoExtracted (km : List (List ℝ) → Nat → List Nat)
    (db : List (List ℝ) → ℝ → Nat → List (List Nat))
    (frames texts : List String)
    (nClusters : Option Nat) (dbscanEps : Option ℝ) : PipelineResultCore :=
  if frames.length = 0 then ⟨0, [], []⟩
  else analyzeVideoCore km db frames texts nClusters dbscanEps

lemma foldl_set_nil (ps : List (Nat × Int)) :
    ps.foldl (fun acc p => acc.set p.1 p.2) ([] : List Int) = [] := by
  induction ps with
  | nil => rfl
  | cons p t ih => simpa using ih

lemma pipelineLabels_nil_frames (km : List (List ℝ) → Nat → List Nat)
    (db : List (List ℝ) → ℝ → Nat → List (List Nat))
    (texts : List String) (nC : Option Nat) (eps : Option ℝ) :
    pipelineLabels km db [] texts nC eps = [] := by
  unfold pipelineLabels scatterLabels
  simp only [List.length_nil, List.replicate_zero]
  split
  · rfl
  · cases eps with
    | some e => exact foldl_set_nil _
    | none =>
      cases nC with
      | some k => exact foldl_set_nil _
      | none => exact foldl_set_nil _

/-- C8: zero extracted frames produce no error and an empty successful
result (`totalFrames = 0`, no groups, no representative paths); the same
holds for the common pipeline tail even without the short-circuit. -/
theorem zero_frames_empty_result (km : List (List ℝ) → Nat → List Nat)
    (db : List (List ℝ) → ℝ → Nat → List (List Nat))
    (texts : List String) (nC : Option Nat) (eps : Option ℝ) :
    analyzeVideoExtracted km db [] texts nC eps =
      ⟨0, [], []⟩ ∧
    analyzeVideoCore km db [] texts nC eps = ⟨0, [], []⟩ := by
  have hcore : analyzeVideoCore km db [] texts nC eps = ⟨0, [], []⟩ := by
    unfold analyzeVideoCore formGroups sortedBucketsOf bucketsOf
    rw [pipelineLabels_nil_frames]
    rfl
  refine ⟨?_, hcore⟩
  unfold analyzeVideoExtracted
  rw [if_pos (show ([] : List String).length = 0 from rfl)]

lemma clusterKMeans_min (run : List (List ℝ) → Nat → List Nat)
    (m : List (List ℝ)) (k : Nat) :
    clusterKMeans run m (min k m.length) = clusterKMeans run m k := by
  unfold clusterKMeans
  have : min (min k m.length) m.length = min k m.length := by omega
  rw [this]

/-- C6: with at least one vectorized frame, an explicit `eps` selects
DBSCAN regardless of `nClusters`; otherwise an explicit `nClusters`
selects K-means with that `k` (the call-site clamp to the vector count is
absorbed by K-means' own clamp); otherwise K-means runs with
`k = clamp(round(sqrt(nVectors/2)), 1, 50)`. -/
theorem clustering_strategy_priority (km : List (List ℝ) → Nat → List Nat)
    (db : List (List ℝ) → ℝ → Nat → List (List Nat))
    (frames texts : List String) (nC : Option Nat) (eps : Option ℝ)
    (h : 0 < (buildTfidfMatrix texts).matrix.length) :
    (∀ e, eps = some e →
      pipelineLabels km db frames texts nC eps =
        scatterLabels frames.length (buildTfidfMatrix texts).originalIndices
          (clusterDBSCAN db (buildTfidfMatrix texts).matrix e 2)) ∧
    (eps = none → ∀ k, nC = some k →
      pipelineLabels km db frames texts nC eps =
        scatterLabels frames.length (buildTfidfMatrix texts).originalIndices
          (clusterKMeans km (buildTfidfMatrix texts).matrix k)) ∧
    (eps = none → nC = none →
      pipelineLabels km db frames texts nC eps =
        scatterLabels frames.length (buildTfidfMatrix texts).originalIndices
          (clusterKMeans km (buildTfidfMatrix texts).matrix
            (autoKOf (buildTfidfMatrix texts).matrix.length))) ∧
    autoKOf (buildTfidfMatrix texts).matrix.length =
      max 1 (min (jsRound (Real.sqrt
        (((buildTfidfMatrix texts).matrix.length : ℝ) / 2))).toNat 50) := by
  refine ⟨?_, ?_, ?_, rfl⟩
  · intro e he
    subst he
    unfold pipelineLabels
    rw [if_neg (by omega)]
  · intro he k hk
    subst he
    subst hk
    unfold pipelineLabels
    rw [if_neg (by omega)]
    show scatterLabels frames.length (buildTfidfMatrix texts).originalIndices
        (clusterKMeans km (buildTfidfMatrix texts).matrix
          (min k (buildTfidfMatrix texts).matrix.length)) = _
    exact congrArg _ (clusterKMeans_min km _ k)
  · intro he hk
    subst he
    subst hk
    unfold pipelineLabels
    rw [if_neg (by omega)]

/-- Witness for C6: an explicit eps beats an explicit cluster count. -/
theorem clustering_strategy_priority_witness :
    0 < (buildTfidfMatrix ["hello"]).matrix.length ∧
      (∀ e, (some (1 : ℝ) : Option ℝ) = some e →
        pipelineLabels (fun _ _ => []) (fun _ _ _ => []) [] ["hello"]
            (some 3) (some (1 : ℝ)) =
          scatterLabels ([] : List String).length
            (buildTfidfMatrix ["hello"]).originalIndices
            (clusterDBSCAN (fun _ _ _ => []) (buildTfidfMatrix ["hello"]).matrix e 2)) :=
  ⟨by rw [buildTfidfMatrix_matrix_length]; decide,
   (clustering_strategy_priority (fun _ _ => []) (fun _ _ _ => []) [] ["hello"]
      (some 3) (some (1 : ℝ))
      (by rw [buildTfidfMatrix_matrix_length]; decide)).1⟩

/-! ## Partition properties of group formation -/

/-- All bucketed indices, in bucket order. -/
def joinSnd (bs : List (Int × List Nat)) : List Nat :=
  (bs.map (fun p => p.2)).flatten

lemma addIdx_joinSnd (bs : List (Int × List Nat)) (l : Int) (i : Nat) :
    joinSnd (addIdx bs l i) ~ joinSnd bs ++ [i] := by
  induction bs with
  | nil => simp [addIdx, joinSnd]
  | cons p rest ih =>
    obtain ⟨l', is⟩ := p
    unfold addIdx
    by_cases hl : l' = l
    · rw [if_pos hl]
      unfold joinSnd
      simp only [List.map_cons, List.flatten_cons]
      calc (is ++ [i]) ++ ((rest.map (fun p => p.2)).flatten)
          = is ++ ([i] ++ (rest.map (fun p => p.2)).flatten) := by simp
        _ ~ is ++ ((rest.map (fun p => p.2)).flatten ++ [i]) :=
            List.Perm.append_left is (List.perm_append_comm)
        _ = (is ++ (rest.map (fun p => p.2)).flatten) ++ [i] := by simp
    · rw [if_neg hl]
      unfold joinSnd
      simp only [List.map_cons, List.flatten_cons]
      calc is ++ ((addIdx rest l i).map (fun p => p.2)).flatten
          ~ is ++ (joinSnd rest ++ [i]) := List.Perm.append_left is ih
        _ = (is ++ joinSnd rest) ++ [i] := by simp

lemma bucketsAux_joinSnd :
    ∀ (rest : List Int) (i : Nat) (acc : List (Int × List Nat)),
      joinSnd (bucketsAux i rest acc) ~ joinSnd acc ++ List.range' i rest.length := by
  intro rest
  induction rest with
  | nil => intro i acc; simp [bucketsAux]
  | cons l rest ih =>
    intro i acc
    show joinSnd (bucketsAux (i + 1) rest (addIdx acc l i)) ~ _
    calc joinSnd (bucketsAux (i + 1) rest (addIdx acc l i))
        ~ joinSnd (addIdx acc l i) ++ List.range' (i + 1) rest.length := ih (i + 1) _
      _ ~ (joinSnd acc ++ [i]) ++ List.range' (i + 1) rest.length :=
          List.Perm.append_right _ (addIdx_joinSnd acc l i)
      _ = joinSnd acc ++ List.range' i (l :: rest).length := by
          simp [List.range'_succ]

lemma bucketsOf_joinSnd (labels : List Int) :
    joinSnd (bucketsOf labels) ~ List.range labels.length := by
  have h := bucketsAux_joinSnd labels 0 []
  simpa [bucketsOf, joinSnd, List.range_eq_range'] using h

lemma addIdx_homog {P : Int → Nat → Prop} {bs : List (Int × List Nat)}
    {l : Int} {i : Nat}
    (hbs : ∀ p ∈ bs, ∀ j ∈ p.2, P p.1 j) (hi : P l i) :
    ∀ p ∈ addIdx bs l i, ∀ j ∈ p.2, P p.1 j := by
  induction bs with
  | nil =>
    intro p hp j hj
    simp only [addIdx, List.mem_singleton] at hp
    subst hp
    simp only [List.mem_singleton] at hj
    subst hj
    exact hi
  | cons q rest ih =>
    obtain ⟨l', is⟩ := q
    intro p hp j hj
    unfold addIdx at hp
    by_cases hl : l' = l
    · rw [if_pos hl] at hp
      rcases List.mem_cons.mp hp with rfl | hp'
      · rcases List.mem_append.mp hj with hj' | hj'
        · exact hbs (l', is) (List.mem_cons_self _ _) j hj'
        · simp only [List.mem_singleton] at hj'
          subst hj'
          exact hl ▸ hi
      · exact hbs p (List.mem_cons_of_mem _ hp') j hj
    · rw [if_neg hl] at hp
      rcases List.mem_cons.mp hp with rfl | hp'
      · exact hbs (l', is) (List.mem_cons_self _ _) j hj
      · exact ih (fun q hq => hbs q (List.mem_cons_of_mem _ hq)) p hp' j hj

lemma bucketsAux_homog {P : Int → Nat → Prop} :
    ∀ (rest : List Int) (i : Nat) (acc : List (Int × List Nat)),
      (∀ p ∈ acc, ∀ j ∈ p.2, P p.1 j) →
      (∀ k, k < rest.length → P (rest.getD k 0) (i + k)) →
      ∀ p ∈ bucketsAux i rest acc, ∀ j ∈ p.2, P p.1 j := by
  intro rest
  induction rest with
  | nil => intro i acc hacc _; exact hacc
  | cons l rest ih =>
    intro i acc hacc hlab
    refine ih (i + 1) (addIdx acc l i)
      (addIdx_homog hacc ?_) ?_
    · have := hlab 0 (by simp)
      simpa using this
    · intro k hk
      have := hlab (k + 1) (by simpa using hk)
      simpa [Nat.add_assoc, Nat.add_comm 1 k] using this

lemma bucketsOf_homog (labels : List Int) :
    ∀ p ∈ bucketsOf labels, ∀ j ∈ p.2,
      j < labels.length ∧ labels.getD j 0 = p.1 := by
  refine bucketsAux_homog (P := fun l j => j < labels.length ∧ labels.getD j 0 = l)
    labels 0 [] (by intro p hp; cases hp) ?_
  intro k hk
  exact ⟨by simpa using hk, by simp⟩

lemma perm_flatten_of_perm {α : Type} {l₁ l₂ : List (List α)} (h : l₁ ~ l₂) :
    l₁.flatten ~ l₂.flatten := by
  induction h with
  | nil => exact List.Perm.refl _
  | cons x _ ih =>
    simp only [List.flatten_cons]
    exact List.Perm.append_left x ih
  | swap x y t =>
    simp only [List.flatten_cons]
    calc y ++ (x ++ t.flatten) = (y ++ x) ++ t.flatten := by simp
      _ ~ (x ++ y) ++ t.flatten := List.Perm.append_right _ List.perm_append_comm
      _ = x ++ (y ++ t.flatten) := by simp
  | trans _ _ ih₁ ih₂ => exact ih₁.trans ih₂

lemma forall2_perm_sorted (frames : List String) (bs : List (Int × List Nat)) :
    List.Forall₂ (· ~ ·) (bs.map (fun b => sortIndicesByFrame frames b.2))
      (bs.map (fun b => b.2)) := by
  induction bs with
  | nil => exact List.Forall₂.nil
  | cons b rest ih =>
    exact List.Forall₂.cons (List.perm_insertionSort _ _) ih

lemma sortedBucketsOf_perm (frames : List String) (labels : List Int) :
    sortedBucketsOf frames labels ~ bucketsOf labels :=
  List.perm_insertionSort _ _

lemma withIdx_map_map {α β γ : Type} (l : List α) (h : Nat → α → β) (f : β → γ)
    (g : α → γ) (hcomp : ∀ i a, f (h i a) = g a) :
    ∀ k, ((withIdx k l).map (fun p => h p.1 p.2)).map f = l.map g := by
  induction l with
  | nil => intro k; rfl
  | cons a t ih =>
    intro k
    simp only [withIdx, List.map_cons, hcomp, ih (k + 1)]

lemma formGroups_frames (frames texts : List String) (labels : List Int) :
    (formGroups frames texts labels).map (fun g => g.frames) =
      (sortedBucketsOf frames labels).map (fun b => sortIndicesByFrame frames b.2) := by
  unfold formGroups
  exact withIdx_map_map _ (fun i b => mkGroup frames texts i b) _ _ (fun i a => rfl) 0

lemma formGroups_frameCount (frames texts : List String) (labels : List Int) :
    (formGroups frames texts labels).map (fun g => g.frameCount) =
      (sortedBucketsOf frames labels).map (fun b => b.2.length) := by
  unfold formGroups
  exact withIdx_map_map _ (fun i b => mkGroup frames texts i b) _ _ (fun i a => rfl) 0

lemma groups_flatten_perm (frames texts : List String) (labels : List Int) :
    ((formGroups frames texts labels).map (fun g => g.frames)).flatten ~
      List.range labels.length := by
  rw [formGroups_frames]
  calc ((sortedBucketsOf frames labels).map (fun b => sortIndicesByFrame frames b.2)).flatten
      ~ ((sortedBucketsOf frames labels).map (fun b => b.2)).flatten :=
        List.Perm.flatten_congr (forall2_perm_sorted frames _)
    _ ~ ((bucketsOf labels).map (fun b => b.2)).flatten :=
        perm_flatten_of_perm (List.Perm.map _ (sortedBucketsOf_perm frames labels))
    _ ~ List.range labels.length := bucketsOf_joinSnd labels

lemma foldl_set_length (ps : List (Nat × Int)) :
    ∀ base : List Int,
      (ps.foldl (fun acc p => acc.set p.1 p.2) base).length = base.length := by
  induction ps with
  | nil => intro base; rfl
  | cons p t ih => intro base; simp [ih]

lemma scatterLabels_length (n : Nat) (idxs : List Nat) (ls : List Int) :
    (scatterLabels n idxs ls).length = n := by
  unfold scatterLabels
  rw [foldl_set_length]
  exact List.length_replicate n (-1)

lemma pipelineLabels_length (km : List (List ℝ) → Nat → List Nat)
    (db : List (List ℝ) → ℝ → Nat → List (List Nat))
    (frames texts : List String) (nC : Option Nat) (eps : Option ℝ) :
    (pipelineLabels km db frames texts nC eps).length = frames.length := by
  unfold pipelineLabels
  split
  · exact List.length_replicate _ _
  · cases eps with
    | some e => exact scatterLabels_length _ _ _
    | none =>
      cases nC with
      | some k => exact scatterLabels_length _ _ _
      | none => exact scatterLabels_length _ _ _

lemma pairwise_disjoint_of_nodup_flatten {α : Type} [DecidableEq α] :
    ∀ ls : List (List α), ls.flatten.Nodup →
      ls.Pairwise (fun a b => ∀ i, i ∈ a → i ∉ b) := by
  intro ls
  induction ls with
  | nil => intro _; exact List.Pairwise.nil
  | cons a t ih =>
    intro h
    rw [List.flatten_cons, List.nodup_append] at h
    obtain ⟨_, hflat, hdisj⟩ := h
    refine List.Pairwise.cons ?_ (ih hflat)
    intro b hb i hia hib
    exact hdisj hia (List.mem_flatten.mpr ⟨b, hb, hib⟩)

/-- C10: with at least one sampled frame, the output groups partition the
sampled frame indices: each index occurs in exactly one group's member
list, groups are pairwise disjoint, and the group sizes sum to
`totalFrames`. -/
theorem groups_partition_frames (km : List (List ℝ) → Nat → List Nat)
    (db : List (List ℝ) → ℝ → Nat → List (List Nat))
    (frames texts : List String) (nC : Option Nat) (eps : Option ℝ)
    (h : 0 < frames.length) :
    (∀ i, i < frames.length →
      (((analyzeVideoCore km db frames texts nC eps).groups.map
        (fun g => g.frames)).flatten).count i = 1) ∧
    List.Pairwise (fun g g' => ∀ i, i ∈ g.frames → i ∉ g'.frames)
      (analyzeVideoCore km db frames texts nC eps).groups ∧
    ((analyzeVideoCore km db frames texts nC eps).groups.map
      (fun g => g.frameCount)).sum =
      (analyzeVideoCore km db frames texts nC eps).totalFrames ∧
    (analyzeVideoCore km db frames texts nC eps).totalFrames = frames.length := by
  have hg : (analyzeVideoCore km db frames texts nC eps).groups =
      formGroups frames texts (pipelineLabels km db frames texts nC eps) := rfl
  have hlen := pipelineLabels_length km db frames texts nC eps
  have hperm : ((analyzeVideoCore km db frames texts nC eps).groups.map
      (fun g => g.frames)).flatten ~ List.range frames.length := by
    rw [hg, ← hlen]
    exact groups_flatten_perm frames texts _
  refine ⟨?_, ?_, ?_, rfl⟩
  · intro i hi
    rw [hperm.count_eq]
    exact List.count_eq_one_of_mem (List.nodup_range frames.length)
      (List.mem_range.mpr hi)
  · have hnd : (((analyzeVideoCore km db frames texts nC eps).groups.map
        (fun g => g.frames)).flatten).Nodup :=
      hperm.nodup_iff.mpr (List.nodup_range frames.length)
    have := pairwise_disjoint_of_nodup_flatten _ hnd
    exact (List.pairwise_map.mp this)
  · have hsum : ((analyzeVideoCore km db frames texts nC eps).groups.map
        (fun g => g.frames)).flatten.length = frames.length := hperm.length_eq.trans
      (List.length_range frames.length)
    rw [List.length_flatten] at hsum
    have hcnt : (analyzeVideoCore km db frames texts nC eps).groups.map
        (fun g => g.frameCount) =
        ((analyzeVideoCore km db frames texts nC eps).groups.map
          (fun g => g.frames)).map List.length := by
      rw [hg, formGroups_frameCount, formGroups_frames, List.map_map]
      apply List.map_congr_left
      intro b _
      exact ((List.perm_insertionSort _ b.2).length_eq).symm
    rw [hcnt]
    exact hsum

/-- Witness for C10 on a one-frame run. -/
theorem groups_partition_frames_witness :
    0 < (["frame_000001.jpg"] : List String).length ∧
      ((analyzeVideoCore (fun _ _ => []) (fun _ _ _ => [])
          ["frame_000001.jpg"] [""] none none).groups.map
        (fun g => g.frameCount)).sum =
        (analyzeVideoCore (fun _ _ => []) (fun _ _ _ => [])
          ["frame_000001.jpg"] [""] none none).totalFrames :=
  ⟨by decide,
   (groups_partition_frames (fun _ _ => []) (fun _ _ _ => [])
      ["frame_000001.jpg"] [""] none none (by decide)).2.2.1⟩

lemma core_flatten_perm (km : List (List ℝ) → Nat → List Nat)
    (db : List (List ℝ) → ℝ → Nat → List (List Nat))
    (frames texts : List String) (nC : Option Nat) (eps : Option ℝ) :
    ((analyzeVideoCore km db frames texts nC eps).groups.map
      (fun g => g.frames)).flatten ~ List.range frames.length := by
  have hg : (analyzeVideoCore km db frames texts nC eps).groups =
      formGroups frames texts (pipelineLabels km db frames texts nC eps) := rfl
  rw [hg, ← pipelineLabels_length km db frames texts nC eps]
  exact groups_flatten_perm frames texts _

lemma formGroups_mem (frames texts : List String) (labels : List Int)
    (g : GroupCore) (hg : g ∈ formGroups frames texts labels) :
    ∃ b ∈ bucketsOf labels, g.frames = sortIndicesByFrame frames b.2 := by
  unfold formGroups at hg
  obtain ⟨p, hp, rfl⟩ := List.mem_map.mp hg
  refine ⟨p.2, ?_, rfl⟩
  have hmem : p.2 ∈ (withIdx 0 (sortedBucketsOf frames labels)).map (fun q => q.2) :=
    List.mem_map.mpr ⟨p, hp, rfl⟩
  rw [withIdx_map_snd] at hmem
  exact (sortedBucketsOf_perm frames labels).mem_iff.mp hmem

/-- Counterexample to C1: a DBSCAN run in which every point is noise (the
backend returns no clusters, as happens when no point has `minSamples`
neighbours within `eps`).  Both frames receive label `-1`, yet the result
contains one group holding exactly these noise frames — noise is not
discarded from group formation. -/
theorem noise_in_group_cex :
    pipelineLabels (fun _ _ => []) (fun _ _ _ => [])
        ["frame_000001.jpg", "frame_000002.jpg"] ["alpha", "beta"]
        none (some (1 / 10 : ℝ)) = [-1, -1] ∧
    (analyzeVideoCore (fun _ _ => []) (fun _ _ _ => [])
        ["frame_000001.jpg", "frame_000002.jpg"] ["alpha", "beta"]
        none (some (1 / 10 : ℝ))).groups.map (fun g => g.frames) = [[0, 1]] :=
  ⟨by decide, by decide⟩

/-- C1 amended: noise-labeled frames are not discarded — each frame with
label `-1` lands in exactly one output group, and every member of that
group is labeled `-1` (the grouping loop buckets every label, including
noise; the source even logs that noise "will be in separate group"). -/
theorem noise_frames_grouped_together (km : List (List ℝ) → Nat → List Nat)
    (db : List (List ℝ) → ℝ → Nat → List (List Nat))
    (frames texts : List String) (nC : Option Nat) (eps : Option ℝ) (i : Nat)
    (hi : i < frames.length)
    (hnoise : (pipelineLabels km db frames texts nC eps).getD i 0 = -1) :
    ∃ g ∈ (analyzeVideoCore km db frames texts nC eps).groups,
      i ∈ g.frames ∧
      (∀ j ∈ g.frames, (pipelineLabels km db frames texts nC eps).getD j 0 = -1) ∧
      (((analyzeVideoCore km db frames texts nC eps).groups.map
        (fun g => g.frames)).flatten).count i = 1 := by
  have hperm := core_flatten_perm km db frames texts nC eps
  have hmem : i ∈ ((analyzeVideoCore km db frames texts nC eps).groups.map
      (fun g => g.frames)).flatten :=
    hperm.mem_iff.mpr (List.mem_range.mpr hi)
  obtain ⟨fr, hfr, hifr⟩ := List.mem_flatten.mp hmem
  obtain ⟨g, hgmem, rfl⟩ := List.mem_map.mp hfr
  obtain ⟨b, hb, hfreq⟩ := formGroups_mem frames texts _ g hgmem
  have hmemb : ∀ j ∈ g.frames, j ∈ b.2 := by
    intro j hj
    rw [hfreq] at hj
    exact (List.perm_insertionSort _ b.2).mem_iff.mp hj
  have hlabel : ∀ j ∈ g.frames,
      (pipelineLabels km db frames texts nC eps).getD j 0 = b.1 := by
    intro j hj
    exact (bucketsOf_homog _ b hb j (hmemb j hj)).2
  have hb1 : b.1 = -1 := by
    rw [← hlabel i hifr]
    exact hnoise
  refine ⟨g, hgmem, hifr, ?_, ?_⟩
  · intro j hj
    rw [hlabel j hj, hb1]
  · rw [hperm.count_eq]
    exact List.count_eq_one_of_mem (List.nodup_range frames.length)
      (List.mem_range.mpr hi)

/-- Witness for the amended C1 at the concrete noise run. -/
theorem noise_frames_grouped_together_witness :
    0 < (["frame_000001.jpg", "frame_000002.jpg"] : List String).length ∧
    (pipelineLabels (fun _ _ => []) (fun _ _ _ => [])
        ["frame_000001.jpg", "frame_000002.jpg"] ["alpha", "beta"]
        none (some (1 / 10 : ℝ))).getD 0 0 = -1 ∧
    ∃ g ∈ (analyzeVideoCore (fun _ _ => []) (fun _ _ _ => [])
        ["frame_000001.jpg", "frame_000002.jpg"] ["alpha", "beta"]
        none (some (1 / 10 : ℝ))).groups,
      0 ∈ g.frames ∧
      (∀ j ∈ g.frames,
        (pipelineLabels (fun _ _ => []) (fun _ _ _ => [])
          ["frame_000001.jpg", "frame_000002.jpg"] ["alpha", "beta"]
          none (some (1 / 10 : ℝ))).getD j 0 = -1) ∧
      (((analyzeVideoCore (fun _ _ => []) (fun _ _ _ => [])
          ["frame_000001.jpg", "frame_000002.jpg"] ["alpha", "beta"]
          none (some (1 / 10 : ℝ))).groups.map
        (fun g => g.frames)).flatten).count 0 = 1 :=
  ⟨by decide, by decide,
   noise_frames_grouped_together (fun _ _ => []) (fun _ _ _ => [])
     ["frame_000001.jpg", "frame_000002.jpg"] ["alpha", "beta"]
     none (some (1 / 10 : ℝ)) 0 (by decide) (by decide)⟩

/-- Counterexample to C2: with one empty text and K-means on the single
vectorized frame, the empty-text frame keeps the fill label `-1` and
appears in the second output group — it is not excluded from every
group. -/
theorem empty_text_in_group_cex :
    hasContent "" = false ∧
    pipelineLabels (fun _ _ => []) (fun _ _ _ => [])
        ["frame_000001.jpg", "frame_000002.jpg"] ["hello world", ""]
        (some 1) none = [0, -1] ∧
    (analyzeVideoCore (fun _ _ => []) (fun _ _ _ => [])
        ["frame_000001.jpg", "frame_000002.jpg"] ["hello world", ""]
        (some 1) none).groups.map (fun g => g.frames) = [[0], [1]] := by
  refine ⟨by decide, by decide, ?_⟩
  have hg : (analyzeVideoCore (fun _ _ => []) (fun _ _ _ => [])
      ["frame_000001.jpg", "frame_000002.jpg"] ["hello world", ""]
      (some 1) none).groups =
      formGroups ["frame_000001.jpg", "frame_000002.jpg"] ["hello world", ""]
        (pipelineLabels (fun _ _ => []) (fun _ _ _ => [])
          ["frame_000001.jpg", "frame_000002.jpg"] ["hello world", ""]
          (some 1) none) := rfl
  have hlab : pipelineLabels (fun _ _ => []) (fun _ _ _ => [])
      ["frame_000001.jpg", "frame_000002.jpg"] ["hello world", ""]
      (some 1) none = [0, -1] := by decide
  rw [hg, formGroups_frames, hlab]
  unfold sortedBucketsOf
  have hbuckets : bucketsOf [0, -1] = [(0, [0]), (-1, [1])] := by decide
  rw [hbuckets]
  have h1 : getFrameNumber ((["frame_000001.jpg", "frame_000002.jpg"] :
      List String).getD 0 "") = 1 := by decide
  have h2 : getFrameNumber ((["frame_000001.jpg", "frame_000002.jpg"] :
      List String).getD 1 "") = 2 := by decide
  have hcmp : avgFrameOf ["frame_000001.jpg", "frame_000002.jpg"] [0] ≤
      avgFrameOf ["frame_000001.jpg", "frame_000002.jpg"] [1] := by
    simp only [avgFrameOf, List.map_cons, List.map_nil, List.sum_cons,
      List.sum_nil, List.length_cons, List.length_nil, h1, h2]
    norm_num
  simp only [List.insertionSort, List.orderedInsert]
  rw [if_pos hcmp]
  decide

/-- C2 amended: frames with empty OCR text are counted in `totalFrames`
and excluded from the clustering inputs (they have no TF-IDF row), but
they do appear in exactly one output group rather than in none. -/
theorem empty_text_frames_grouped (km : List (List ℝ) → Nat → List Nat)
    (db : List (List ℝ) → ℝ → Nat → List (List Nat))
    (frames texts : List String) (nC : Option Nat) (eps : Option ℝ) (i : Nat)
    (hi : i < frames.length)
    (hempty : hasContent (texts.getD i "") = false) :
    (analyzeVideoCore km db frames texts nC eps).totalFrames = frames.length ∧
    i ∉ (buildTfidfMatrix texts).originalIndices ∧
    ∃ g ∈ (analyzeVideoCore km db frames texts nC eps).groups,
      i ∈ g.frames ∧
      (((analyzeVideoCore km db frames texts nC eps).groups.map
        (fun g => g.frames)).flatten).count i = 1 := by
  refine ⟨rfl, ?_, ?_⟩
  · rw [buildTfidfMatrix_originalIndices]
    intro hmem
    have := (mem_originalIndicesOf.mp hmem).2
    rw [hempty] at this
    cases this
  · have hperm := core_flatten_perm km db frames texts nC eps
    have hmem : i ∈ ((analyzeVideoCore km db frames texts nC eps).groups.map
        (fun g => g.frames)).flatten :=
      hperm.mem_iff.mpr (List.mem_range.mpr hi)
    obtain ⟨fr, hfr, hifr⟩ := List.mem_flatten.mp hmem
    obtain ⟨g, hgmem, rfl⟩ := List.mem_map.mp hfr
    refine ⟨g, hgmem, hifr, ?_⟩
    rw [hperm.count_eq]
    exact List.count_eq_one_of_mem (List.nodup_range frames.length)
      (List.mem_range.mpr hi)

/-- Witness for the amended C2 at the concrete mixed-text run. -/
theorem empty_text_frames_grouped_witness :
    1 < (["frame_000001.jpg", "frame_000002.jpg"] : List String).length ∧
    hasContent ((["hello world", ""] : List String).getD 1 "") = false ∧
    ((analyzeVideoCore (fun _ _ => []) (fun _ _ _ => [])
        ["frame_000001.jpg", "frame_000002.jpg"] ["hello world", ""]
        (some 1) none).totalFrames =
      (["frame_000001.jpg", "frame_000002.jpg"] : List String).length ∧
    1 ∉ (buildTfidfMatrix ["hello world", ""]).originalIndices ∧
    ∃ g ∈ (analyzeVideoCore (fun _ _ => []) (fun _ _ _ => [])
        ["frame_000001.jpg", "frame_000002.jpg"] ["hello world", ""]
        (some 1) none).groups,
      1 ∈ g.frames ∧
      (((analyzeVideoCore (fun _ _ => []) (fun _ _ _ => [])
          ["frame_000001.jpg", "frame_000002.jpg"] ["hello world", ""]
          (some 1) none).groups.map (fun g => g.frames)).flatten).count 1 = 1) :=
  ⟨by decide, by decide,
   empty_text_frames_grouped (fun _ _ => []) (fun _ _ _ => [])
     ["frame_000001.jpg", "frame_000002.jpg"] ["hello world", ""]
     (some 1) none 1 (by decide) (by decide)⟩

/-! ## OCR stage (`src/video-analyzer/ocr.ts`)

The external `tesseract` binary is an oracle `String → Option String`:
`some text` for a successful run, `none` for a non-zero exit.  The worker
pool shares only the pending queue and the result map; each queue item is
shifted by exactly one worker, so any execution processes the frames in
some permutation of the input order, and the result map is keyed by frame
path. -/

/-- `ocrFrame`: the catch block maps a per-frame failure to empty text. -/
def ocrFrame (ocr : String → Option String) (framePath : String) : String :=
  match ocr framePath with
  | some text => text
  | none => ""

/-- `ocrAllFrames` under a given processing order: every processed frame
contributes exactly one entry to the result association. -/
def ocrAllFrames (ocr : String → Option String) (order : List String) :
    List (String × String) :=
  order.map (fun f => (f, ocrFrame ocr f))

/-- Lookup in the result association (the `Map.get` of the consumer). -/
def lookupFrame (assoc : List (String × String)) (f : String) : Option String :=
  (assoc.find? (fun p => p.1 == f)).map (fun p => p.2)

lemma ocrAllFrames_keys (ocr : String → Option String) (order : List String) :
    (ocrAllFrames ocr order).map (fun p => p.1) = order := by
  unfold ocrAllFrames
  rw [List.map_map]
  exact List.map_id order

lemma lookupFrame_ocrAllFrames (ocr : String → Option String) (f : String) :
    ∀ l : List String, f ∈ l →
      lookupFrame (ocrAllFrames ocr l) f = some (ocrFrame ocr f) := by
  intro l
  induction l with
  | nil => intro h; cases h
  | cons a t ih =>
    intro hmem
    unfold ocrAllFrames lookupFrame
    simp only [List.map_cons, List.find?_cons]
    by_cases haf : a = f
    · subst haf
      simp
    · have : ((a, ocrFrame ocr a).1 == f) = false := by
        simp [haf]
      rw [this]
      have hft : f ∈ t := by
        rcases List.mem_cons.mp hmem with rfl | hft
        · exact absurd rfl haf
        · exact hft
      exact ih hft

/-- C7: for distinct frame paths and any completion order (a permutation
of the frames), the OCR stage maps every frame to exactly one text; a
per-frame failure yields empty text for that frame only, and the stage is
a total function — no error propagates. -/
theorem ocr_stage_total_coverage (frames order : List String)
    (ocr : String → Option String)
    (hperm : order ~ frames) (hnd : frames.Nodup) :
    ∀ f ∈ frames,
      ((ocrAllFrames ocr order).map (fun p => p.1)).count f = 1 ∧
      lookupFrame (ocrAllFrames ocr order) f = some (ocrFrame ocr f) ∧
      (ocr f = none → lookupFrame (ocrAllFrames ocr order) f = some "") := by
  intro f hf
  have hcount : ((ocrAllFrames ocr order).map (fun p => p.1)).count f = 1 := by
    rw [ocrAllFrames_keys, hperm.count_eq]
    exact List.count_eq_one_of_mem hnd hf
  have hlook := lookupFrame_ocrAllFrames ocr f order (hperm.mem_iff.mpr hf)
  refine ⟨hcount, hlook, ?_⟩
  intro hnone
  rw [hlook]
  unfold ocrFrame
  rw [hnone]

/-- Witness for C7 with a failing OCR oracle on two frames. -/
theorem ocr_stage_total_coverage_witness :
    (["b", "a"] : List String) ~ ["a", "b"] ∧ (["a", "b"] : List String).Nodup ∧
      (((ocrAllFrames (fun _ => none) ["b", "a"]).map (fun p => p.1)).count "a" = 1 ∧
        lookupFrame (ocrAllFrames (fun _ => none) ["b", "a"]) "a" =
          some (ocrFrame (fun _ => none) "a") ∧
        ((fun _ => (none : Option String)) "a" = none →
          lookupFrame (ocrAllFrames (fun _ => none) ["b", "a"]) "a" = some "")) :=
  ⟨List.Perm.swap "a" "b" [], by decide,
   ocr_stage_total_coverage ["a", "b"] ["b", "a"] (fun _ => none)
     (List.Perm.swap "a" "b" []) (by decide) "a" (by decide)⟩

/-! ## Timestamp derivation (claim C9) -/

/-- C9: for every positive ordinal the derived total seconds equal
`(N-1)/15`; below the one-hour mark the rendering is zero-padded minutes,
a colon, and the seconds with one decimal digit padded to width 4; and
ordinal 16 renders as `"00:01.0"`. -/
theorem frame_timestamp_formula (N : Nat) (h1 : 1 ≤ N) :
    totalSecondsOf N = ((N : ℚ) - 1) / 15 ∧
    (N ≤ 54000 →
      frameNumberToTimestamp N =
        natPad2 (⌊qFloorMod (totalSecondsOf N) 3600 / 60⌋).toNat ++ ":" ++
          padLeftZeros (toFixed1 (qFloorMod (totalSecondsOf N) 60)) 4) ∧
    frameNumberToTimestamp 16 = "00:01.0" := by
  have hcast : (1 : ℚ) ≤ (N : ℚ) := by exact_mod_cast h1
  have hnn : 0 ≤ ((N : ℚ) - 1) / 15 := by
    apply div_nonneg
    · linarith
    · norm_num
  have htot : totalSecondsOf N = ((N : ℚ) - 1) / 15 := by
    unfold totalSecondsOf SAMPLE_FPS
    push_cast
    exact max_eq_right hnn
  refine ⟨htot, ?_, ?_⟩
  · intro hle
    have hlt : ((N : ℚ) - 1) / 15 < 3600 := by
      rw [div_lt_iff (by norm_num : (0 : ℚ) < 15)]
      have : (N : ℚ) ≤ 54000 := by exact_mod_cast hle
      linarith
    have hfl : ⌊totalSecondsOf N / 3600⌋ = 0 := by
      rw [Int.floor_eq_zero_iff, htot, Set.mem_Ico]
      constructor
      · positivity
      · rw [div_lt_one (by norm_num : (0 : ℚ) < 3600)]
        linarith
    unfold frameNumberToTimestamp
    rw [hfl]
    rw [if_neg (by decide)]
  · have ht16 : totalSecondsOf 16 = 1 := by
      unfold totalSecondsOf SAMPLE_FPS
      norm_num
    have hfl1 : ⌊(1 : ℚ) / 3600⌋ = 0 := by
      rw [Int.floor_eq_zero_iff, Set.mem_Ico]
      norm_num
    have hfl2 : ⌊(1 : ℚ) / 60⌋ = 0 := by
      rw [Int.floor_eq_zero_iff, Set.mem_Ico]
      norm_num
    have hqm3600 : qFloorMod 1 3600 = 1 := by
      unfold qFloorMod
      rw [hfl1]
      ring
    have hqm60 : qFloorMod 1 60 = 1 := by
      unfold qFloorMod
      rw [hfl2]
      ring
    have hkey : ⌊(1 : ℚ) * 10 + 1 / 2⌋ = 10 := by
      rw [Int.floor_eq_iff]
      norm_num
    unfold frameNumberToTimestamp
    rw [ht16, hfl1, hqm3600, hqm60, hfl2]
    rw [if_neg (by decide)]
    unfold toFixed1
    rw [hkey]
    decide

/-- Witness for C9 at ordinal 16. -/
theorem frame_timestamp_formula_witness :
    1 ≤ 16 ∧ frameNumberToTimestamp 16 = "00:01.0" :=
  ⟨by decide, (frame_timestamp_formula 16 (by decide)).2.2⟩

end VideoAnalyzer
